import Mathlib

/-!
# Verification of the PyQtTest tic-tac-toe engine

Shallow embedding of `src/PyQtTest/widgets/tictactoe/utils.py` (State,
Field, Board, Move, Game) and `src/PyQtTest/widgets/tictactoe/smorts.py`
(ExplicitAI, MoveNode, TreeAI), with theorems settling the spec claims.

Python exceptions are modelled by an `Except Err` result; the `Err`
constructors mirror the distinct Python exception kinds that the claims
distinguish (`Move.IllegalMove` with its reason string, the builtin
`IndexError`, `StopIteration` from `next()`, `ValueError` from
`list.index`, and the AI layer's `CannotComputeMove`).  Every raise in
the source happens before any mutation of the object it is raised from,
so a function returning `.error e` models "exception raised, state
unchanged".
-/

namespace TicTacToe

/-- The three allowed cell states: players `X` and `O` and the empty
sentinel `N` (a space).  The source creates exactly these three
singleton objects and compares them by identity, which structural
equality on a closed inductive type models. -/
inductive State where
  | X
  | O
  | N
deriving DecidableEq, Repr

/-- `State.is_player`: membership in `PLAYER_STATES = {X, O}`. -/
def State.is_player : State → Bool
  | .X => true
  | .O => true
  | .N => false

/-- `Player.__next__ = lambda self: O if self is X else X`. -/
def nextPlayer : State → State
  | .X => .O
  | _ => .X

/-- `repr` of a state, as the source's `State.__repr__` prints it. -/
def State.str : State → String
  | .X => "X"
  | .O => "O"
  | .N => " "

/-- One cell of the board: its `(row, column)` construction coordinate
and its current state (`utils.Field`, view-refresh callback omitted). -/
structure Field where
  index : Int × Int
  state : State
deriving DecidableEq, Repr

/-- `utils.Board`: an `N×N` grid of fields.  The grid
`self._fields[i][j]` (always `size` lists of `size` fields, the field at
position `(i, j)` carrying index `(i, j)`) is modelled by the function
`cell` together with `size`; Python's list-index normalisation is made
explicit in `pyIdx` below. -/
structure Board where
  size : Nat
  cell : Nat → Nat → State

/-- Python list indexing on a list of length `n`: indices in `[0, n)`
are used as-is, indices in `[-n, 0)` wrap by adding `n`, anything else
raises `IndexError` (`none`). -/
def pyIdx (n : Nat) (i : Int) : Option Nat :=
  if 0 ≤ i ∧ i < (n : Int) then some i.toNat
  else if -(n : Int) ≤ i ∧ i < 0 then some ((n : Int) + i).toNat
  else none

/-- The `Field` object stored at grid position `(i, j)`. -/
def Board.field (b : Board) (i j : Nat) : Field :=
  ⟨((i : Int), (j : Int)), b.cell i j⟩

/-- `Board.__getitem__`: `self._fields[r][c].state`, with Python's
negative-index wrap-around; `none` models the `IndexError`. -/
def Board.getItem (b : Board) (idx : Int × Int) : Option State := do
  let r ← pyIdx b.size idx.1
  let c ← pyIdx b.size idx.2
  some (b.cell r c)

/-- `Board.__setitem__`: `self._fields[r][c].state = s`, with Python's
negative-index wrap-around; `none` models the `IndexError`. -/
def Board.setItem (b : Board) (idx : Int × Int) (s : State) : Option Board := do
  let r ← pyIdx b.size idx.1
  let c ← pyIdx b.size idx.2
  some { b with cell := fun i j => if i = r ∧ j = c then s else b.cell i j }

/-- `Board.__init__`: a fresh all-empty `size × size` board. -/
def Board.init (size : Nat) : Board :=
  ⟨size, fun _ _ => .N⟩

/-- The fields of row `i`, in column order. -/
def Board.rowFields (b : Board) (i : Nat) : List Field :=
  (List.range b.size).map (fun j => b.field i j)

/-- `Board.rows`: the rows of the board, as lists of fields. -/
def Board.rows (b : Board) : List (List Field) :=
  (List.range b.size).map b.rowFields

/-- `Board.columns`: for each `i`, the list `row[i] for row in fields`. -/
def Board.columns (b : Board) : List (List Field) :=
  (List.range b.size).map (fun i => (List.range b.size).map (fun r => b.field r i))

/-- `Board.diagonals`: the main diagonal `fields[i][i]` and the
anti-diagonal `fields[size-i-1][i]`. -/
def Board.diagonals (b : Board) : List (List Field) :=
  [(List.range b.size).map (fun i => b.field i i),
   (List.range b.size).map (fun i => b.field (b.size - i - 1) i)]

/-- `Board.all_win_conditions`: `[*rows, *columns, *diagonals]`. -/
def Board.all_win_conditions (b : Board) : List (List Field) :=
  b.rows ++ b.columns ++ b.diagonals

/-- `Board.is_empty`: every field of every row is `N`. -/
def Board.is_empty (b : Board) : Bool :=
  b.rows.all (fun row => row.all (fun f => f.state == .N))

/-- `Board.is_full`: every field of every row is not `N`. -/
def Board.is_full (b : Board) : Bool :=
  b.rows.all (fun row => row.all (fun f => f.state != .N))

/-- `Board.has_won`: some win condition is entirely this player's. -/
def Board.has_won (b : Board) (player : State) : Bool :=
  b.all_win_conditions.any (fun wincon => wincon.all (fun f => f.state == player))

/-- `Board.winning_player`: iterate over `PLAYER_STATES` and return the
first player that has won (the source iterates a two-element set; `X`
then `O` fixes one concrete iteration order). -/
def Board.winning_player (b : Board) : Option State :=
  if b.has_won .X then some .X
  else if b.has_won .O then some .O
  else none

/-- `utils.Move`: an `(index, player)` pair; `player` may be `None`.
The dataclass compares by structural equality of both components. -/
structure Move where
  index : Int × Int
  player : Option State
deriving DecidableEq, Repr

/-- The Python exception kinds the engine and the AI layer can raise. -/
inductive Err where
  | IllegalMove (move : Move) (reason : String)
  | IndexError
  | StopIteration
  | ValueError
  | CannotComputeMove
deriving DecidableEq, Repr

/-- `utils.Game`: a board plus the initial player, the current-player
field's state, and the move history. -/
structure Game where
  board : Board
  _initial_player : State
  _current_player_state : State
  history : List Move

/-- `Game.__init__`. -/
def Game.init (initial_player : State) (size : Nat) : Game :=
  ⟨Board.init size, initial_player, initial_player, []⟩

/-- The `Game.current_player` getter: the stored state if it is a
player, else the initial player (the type-hinting fallback). -/
def Game.current_player (g : Game) : State :=
  if g._current_player_state.is_player then g._current_player_state
  else g._initial_player

/-- `Game.next_player`: `next(self.current_player)`. -/
def Game.next_player (g : Game) : State :=
  nextPlayer g.current_player

/-- `Game.find_move`: the first history entry whose index equals
`(row, column)`; `none` models the `StopIteration` from `next()`. -/
def Game.find_move (g : Game) (row column : Int) : Option Move :=
  g.history.find? (fun m => m.index == (row, column))

/-- The reason string of `IllegalMove(move, f'{move.player} is not a valid player')`. -/
def invalidPlayerMsg (p : Option State) : String :=
  (match p with | none => "None" | some s => s.str) ++ " is not a valid player"

/-- The reason string of `IllegalMove(move, f"Field already set to '{s}'")`. -/
def occupiedMsg (s : State) : String :=
  "Field already set to " ++ "\x27" ++ s.str ++ "\x27"

/-- `Game.apply_move`: check the player is a valid `Player`, check the
target cell is empty (reading it may raise `IndexError`), then set
`current_player`, write the cell, and append the move to the history. -/
def Game.apply_move (g : Game) (move : Move) : Except Err Game :=
  match move.player with
  | none => .error (.IllegalMove move (invalidPlayerMsg move.player))
  | some p =>
    if ¬ p.is_player then .error (.IllegalMove move (invalidPlayerMsg move.player))
    else
      match g.board.getItem move.index with
      | none => .error .IndexError
      | some s =>
        if s ≠ .N then .error (.IllegalMove move (occupiedMsg s))
        else
          match g.board.setItem move.index p with
          | none => .error .IndexError
          | some b' =>
            .ok { g with board := b', _current_player_state := p,
                         history := g.history ++ [move] }

/-- `Game.move` with a `Move` argument: fill in a `None` player with the
current player, `apply_move`, then advance `current_player` to
`next_player`.  No turn-order check is performed. -/
def Game.move (g : Game) (m : Move) : Except Err Game :=
  let m' := match m.player with
    | none => { m with player := some g.current_player }
    | some _ => m
  match g.apply_move m' with
  | .error e => .error e
  | .ok g' => .ok { g' with _current_player_state := g'.next_player }

/-- `Game.move` with the `(row, column, player)` overload: build
`Move((row, column), player or self.current_player)` (any state object
is truthy, so only `None` falls back to the current player), then
proceed as the `Move` overload. -/
def Game.move_rc (g : Game) (row column : Int) (player : Option State) :
    Except Err Game :=
  let m : Move := ⟨(row, column), some (player.getD g.current_player)⟩
  match g.apply_move m with
  | .error e => .error e
  | .ok g' => .ok { g' with _current_player_state := g'.next_player }

/-- `Game.undo_move`: reject a move that is not in the history, else
clear its cell and remove its first occurrence from the history. -/
def Game.undo_move (g : Game) (move : Move) : Except Err Game :=
  if ¬ g.history.contains move then
    .error (.IllegalMove move "not in game history")
  else
    match g.board.setItem move.index .N with
    | none => .error .IndexError
    | some b' => .ok { g with board := b', history := g.history.erase move }

/-- `Game.undo`: undo `self._history[-1]`; indexing an empty history
raises `IndexError`. -/
def Game.undo (g : Game) : Except Err Game :=
  match g.history.getLast? with
  | none => .error .IndexError
  | some m => g.undo_move m

/-- `outlist.extend(self.find_move(*f.index) for f in wincon)`: the
historical move of each field of a line, `none` when some field has no
history entry (the `next()` inside the generator raises). -/
def Game.collectLineMoves (g : Game) : List Field → Option (List Move)
  | [] => some []
  | f :: rest =>
    match g.find_move f.index.1 f.index.2 with
    | none => none
    | some mv =>
      match Game.collectLineMoves g rest with
      | none => none
      | some ms => some (mv :: ms)

/-- The loop body of `Game.winning_moves`: for each win condition fully
occupied by `player`, extend the output with the historical move of
each of its fields (a missing history entry makes `next()` raise). -/
def Game.winningMovesLoop (g : Game) (player : State) :
    List (List Field) → Except Err (List Move)
  | [] => .ok []
  | wincon :: rest =>
    if wincon.all (fun f => f.state == player) then
      match g.collectLineMoves wincon with
      | none => .error .StopIteration
      | some ms =>
        match Game.winningMovesLoop g player rest with
        | .error e => .error e
        | .ok out => .ok (ms ++ out)
    else Game.winningMovesLoop g player rest

/-- `Game.winning_moves`: with no player given, use `winning_player()`
and return `[]` if nobody is winning; else collect the historical moves
of every win condition fully occupied by the player. -/
def Game.winning_moves (g : Game) (player : Option State) :
    Except Err (List Move) :=
  match player with
  | none =>
    match g.board.winning_player with
    | none => .ok []
    | some p => g.winningMovesLoop p g.board.all_win_conditions
  | some p => g.winningMovesLoop p g.board.all_win_conditions

/-! ## The AI layer (`smorts.py`)

`AbstractAI` stores `player` and `opponent = next(player)`; both AIs are
modelled as functions taking the AI's player explicitly.  The two
`random.choice` calls of `ExplicitAI._starting_move` are modelled by two
Boolean coin parameters selecting between the two candidate corner
coordinates; theorems quantify over them. -/

/-- `ExplicitAI._starting_move`: a random corner, `i, j ∈ {0, size-1}`. -/
def ExplicitAI.starting_move (ai : State) (ci cj : Bool) (b : Board) : Move :=
  ⟨(if ci then 0 else (b.size : Int) - 1,
    if cj then 0 else (b.size : Int) - 1), some ai⟩

/-- The default field value used to read `wincon[k]` at an index that
`list.index` returned (always in range). -/
def dfltField : Field := ⟨(0, 0), .N⟩

/-- Python `list.index`: the first position whose element satisfies the
predicate; `none` models the `ValueError` raised when there is none. -/
def listIndex (p : α → Bool) : List α → Option Nat
  | [] => none
  | a :: rest => if p a then some 0 else (listIndex p rest).map (· + 1)

/-- The loop of `ExplicitAI._winning_move`: skip lines containing the
opponent; on a line with at least `size-1` own marks return the move at
the line's first empty field (`list.index` raises `ValueError` when the
line has no empty field). -/
def ExplicitAI.winningMoveLoop (ai : State) (minOcc : Int) :
    List (List Field) → Except Err (Option Move)
  | [] => .ok none
  | wincon :: rest =>
    if (wincon.map (·.state)).any (fun s => nextPlayer ai == s) then
      ExplicitAI.winningMoveLoop ai minOcc rest
    else if minOcc ≤ ((wincon.map (·.state)).count ai : Int) then
      match listIndex (fun s => s == .N) (wincon.map (·.state)) with
      | some k => .ok (some ⟨(wincon.getD k dfltField).index, some ai⟩)
      | none => .error .ValueError
    else ExplicitAI.winningMoveLoop ai minOcc rest

/-- The loop of `ExplicitAI._defensive_move`: skip fully occupied lines;
on a line with at least `size-1` opponent marks return the move at the
line's first empty field. -/
def ExplicitAI.defensiveMoveLoop (ai : State) (minOcc : Int) :
    List (List Field) → Except Err (Option Move)
  | [] => .ok none
  | wincon :: rest =>
    if (wincon.map (·.state)).all (fun s => s != .N) then
      ExplicitAI.defensiveMoveLoop ai minOcc rest
    else if minOcc ≤ ((wincon.map (·.state)).count (nextPlayer ai) : Int) then
      match listIndex (fun s => s == .N) (wincon.map (·.state)) with
      | some k => .ok (some ⟨(wincon.getD k dfltField).index, some ai⟩)
      | none => .error .ValueError
    else ExplicitAI.defensiveMoveLoop ai minOcc rest

/-- The first fallback loop of `ExplicitAI.next_move`: among lines with
no opponent mark, the first empty field of the first such line that has
one (`ValueError` is caught and the loop continues). -/
def ExplicitAI.opportunisticLoop (ai : State) :
    List (List Field) → Option Move
  | [] => none
  | wincon :: rest =>
    if (wincon.map (·.state)).any (fun s => s == nextPlayer ai) then
      ExplicitAI.opportunisticLoop ai rest
    else
      match listIndex (fun s => s == .N) (wincon.map (·.state)) with
      | some k => some ⟨(wincon.getD k dfltField).index, some ai⟩
      | none => ExplicitAI.opportunisticLoop ai rest

/-- The last fallback loop of `ExplicitAI.next_move`: the first empty
field of the first line that has one. -/
def ExplicitAI.fallbackLoop (ai : State) : List (List Field) → Option Move
  | [] => none
  | wincon :: rest =>
    match listIndex (fun s => s == .N) (wincon.map (·.state)) with
    | some k => some ⟨(wincon.getD k dfltField).index, some ai⟩
    | none => ExplicitAI.fallbackLoop ai rest

/-- `ExplicitAI.next_move`: starting move on an empty board, else the
winning move, else the defensive move, else the center, else the two
fallback loops, else raise `CannotComputeMove`. -/
def ExplicitAI.next_move (ai : State) (ci cj : Bool) (b : Board) :
    Except Err Move :=
  if b.is_empty then .ok (ExplicitAI.starting_move ai ci cj b)
  else
    match ExplicitAI.winningMoveLoop ai ((b.size : Int) - 1) b.all_win_conditions with
    | .error e => .error e
    | .ok (some m) => .ok m
    | .ok none =>
      match ExplicitAI.defensiveMoveLoop ai ((b.size : Int) - 1) b.all_win_conditions with
      | .error e => .error e
      | .ok (some m) => .ok m
      | .ok none =>
        match b.getItem ((b.size : Int) / 2, (b.size : Int) / 2) with
        | none => .error .IndexError
        | some s =>
          if s == .N then .ok ⟨((b.size : Int) / 2, (b.size : Int) / 2), some ai⟩
          else
            match ExplicitAI.opportunisticLoop ai b.all_win_conditions with
            | some m => .ok m
            | none =>
              match ExplicitAI.fallbackLoop ai b.all_win_conditions with
              | some m => .ok m
              | none => .error .CannotComputeMove

/-- `smorts.MoveNode`: a move-tree node — the move it represents, its
resulting winner, and its children (the parent back-reference is not
needed by the claims). -/
inductive MoveNode where
  | mk (index : Int × Int) (player : Option State) (winner : Option State)
       (children : List MoveNode)

/-- The node's move index. -/
def MoveNode.index : MoveNode → Int × Int
  | .mk i _ _ _ => i

/-- The node's move player. -/
def MoveNode.player : MoveNode → Option State
  | .mk _ p _ _ => p

/-- The node's stored winner. -/
def MoveNode.winner : MoveNode → Option State
  | .mk _ _ w _ => w

/-- The node's children list. -/
def MoveNode.children : MoveNode → List MoveNode
  | .mk _ _ _ c => c

/-- `TreeAI.compute_score`: `1100` if the node's winner is the AI's
player, `-1000` if it is the opponent, `min(1000, sum(children) // 2) - 1`
for an inner node (Python `//` is floor division, hence `Int.fdiv`),
`-100` for a winnerless leaf. -/
def TreeAI.compute_score (ai : State) : MoveNode → Int
  | .mk i pl winner children =>
    if winner = some ai then 1100
    else if winner = some (nextPlayer ai) then -1000
    else if children.length ≠ 0 then
      min 1000 (Int.fdiv ((children.attach.map
        (fun c => TreeAI.compute_score ai c.1)).sum) 2) - 1
    else -100
decreasing_by
  simp only [MoveNode.mk.sizeOf_spec]
  have h := List.sizeOf_lt_of_mem c.2
  omega

/-- The `for ... else` loop of `TreeAI.move_callback`: advance to the
first child matching the move's index and player, else raise
`CannotComputeMove` (leaving the cursor unchanged). -/
def TreeAI.moveCallbackLoop (m : Move) : List MoveNode → Except Err MoveNode
  | [] => .error .CannotComputeMove
  | c :: rest =>
    if c.index == m.index && c.player == m.player then .ok c
    else TreeAI.moveCallbackLoop m rest

/-- `TreeAI.move_callback`: walk the cursor's children. -/
def TreeAI.move_callback (cur : MoveNode) (m : Move) : Except Err MoveNode :=
  TreeAI.moveCallbackLoop m cur.children

/-- The property of a Move produced by the rule-based AI that the
claims are about: it is played as the AI's own player and targets an
empty in-range cell of the board. -/
def targetsEmptyCell (b : Board) (ai : State) (m : Move) : Prop :=
  m.player = some ai ∧
  ∃ i j, i < b.size ∧ j < b.size ∧ m.index = ((i : Int), (j : Int)) ∧
    b.cell i j = .N

/-! ## Concrete instances used by witnesses and counterexamples -/

/-- The game reached from `Game(X, 3)` after `move(0, 0)`: `X` at
`(0, 0)`, `O` to play. -/
def gX00 : Game :=
  { board := { size := 3, cell := fun i j => if i = 0 ∧ j = 0 then .X else .N },
    _initial_player := .X, _current_player_state := .O,
    history := [⟨(0, 0), some .X⟩] }

/-- A 3×3 board whose top row is all `X` and whose other cells are
empty. -/
def topRowX : Board := ⟨3, fun i _ => if i = 0 then .X else .N⟩

/-- A two-child cursor node for the `move_callback` witness. -/
def curNode : MoveNode :=
  .mk (-1, -1) (some .O) none
    [.mk (0, 0) (some .X) none [], .mk (0, 1) (some .X) none []]

/-! ## Helper lemmas about indexing -/

theorem pyIdx_lt {n : Nat} {i : Int} {k : Nat} (h : pyIdx n i = some k) :
    k < n := by
  unfold pyIdx at h
  split at h
  · next hc => injection h with h'; omega
  · split at h
    · next hc => injection h with h'; omega
    · exact absurd h (by simp)

theorem pyIdx_of_nonneg {n : Nat} {i : Int} (h0 : 0 ≤ i) (h1 : i < (n : Int)) :
    pyIdx n i = some i.toNat := by
  unfold pyIdx
  rw [if_pos ⟨h0, h1⟩]

theorem pyIdx_of_neg {n : Nat} {i : Int} (h0 : -(n : Int) ≤ i) (h1 : i < 0) :
    pyIdx n i = some ((n : Int) + i).toNat := by
  unfold pyIdx
  rw [if_neg (by omega), if_pos ⟨h0, h1⟩]

theorem pyIdx_emod {n : Nat} {i : Int} (h0 : -(n : Int) ≤ i) (h1 : i < (n : Int)) :
    pyIdx n i = some ((i % (n : Int)).toNat) := by
  rcases le_or_lt 0 i with hge | hlt
  · rw [pyIdx_of_nonneg hge h1, Int.emod_eq_of_lt hge h1]
  · rw [pyIdx_of_neg h0 hlt]
    have hn : 0 < (n : Int) := by omega
    have h2 : (i + (n : Int) * 1) % (n : Int) = i % (n : Int) :=
      Int.add_mul_emod_self_left i (n : Int) 1
    have h3 : (i + (n : Int)) % (n : Int) = i + (n : Int) :=
      Int.emod_eq_of_lt (by omega) (by omega)
    rw [mul_one] at h2
    rw [← h2, h3]
    congr 1
    omega

theorem pyIdx_none {n : Nat} {i : Int} (h : i < -(n : Int) ∨ (n : Int) ≤ i) :
    pyIdx n i = none := by
  unfold pyIdx
  rw [if_neg (by omega), if_neg (by omega)]

theorem Board.getItem_eq (b : Board) {idx : Int × Int} {r c : Nat}
    (hr : pyIdx b.size idx.1 = some r) (hc : pyIdx b.size idx.2 = some c) :
    b.getItem idx = some (b.cell r c) := by
  simp [Board.getItem, hr, hc]

theorem Board.setItem_eq (b : Board) {idx : Int × Int} {r c : Nat} (s : State)
    (hr : pyIdx b.size idx.1 = some r) (hc : pyIdx b.size idx.2 = some c) :
    b.setItem idx s =
      some { b with cell := fun i j => if i = r ∧ j = c then s else b.cell i j } := by
  simp [Board.setItem, hr, hc]

theorem Board.getItem_some_elim (b : Board) {idx : Int × Int} {s : State}
    (h : b.getItem idx = some s) :
    ∃ r c, pyIdx b.size idx.1 = some r ∧ pyIdx b.size idx.2 = some c ∧
      s = b.cell r c := by
  unfold Board.getItem at h
  cases hr : pyIdx b.size idx.1 with
  | none => rw [hr] at h; simp at h
  | some r =>
    cases hc : pyIdx b.size idx.2 with
    | none => rw [hr, hc] at h; simp at h
    | some c =>
      rw [hr, hc] at h
      simp at h
      exact ⟨r, c, rfl, rfl, h.symm⟩

theorem Board.getItem_none_elim (b : Board) {idx : Int × Int}
    (h : b.getItem idx = none) :
    pyIdx b.size idx.1 = none ∨ pyIdx b.size idx.2 = none := by
  unfold Board.getItem at h
  cases hr : pyIdx b.size idx.1 with
  | none => exact Or.inl rfl
  | some r =>
    cases hc : pyIdx b.size idx.2 with
    | none => exact Or.inr rfl
    | some c => rw [hr, hc] at h; simp at h

/-- `apply_move` on a valid player and an empty (possibly wrap-around
indexed) cell: the exact successor state. -/
theorem Game.apply_move_ok (g : Game) (m : Move) (p : State) {r c : Nat}
    (hp : m.player = some p) (hpl : p.is_player = true)
    (hr : pyIdx g.board.size m.index.1 = some r)
    (hc : pyIdx g.board.size m.index.2 = some c)
    (hempty : g.board.cell r c = .N) :
    g.apply_move m = .ok
      { board := { size := g.board.size,
                   cell := fun i j => if i = r ∧ j = c then p else g.board.cell i j },
        _initial_player := g._initial_player,
        _current_player_state := p,
        history := g.history ++ [m] } := by
  simp [Game.apply_move, hp, hpl, Board.getItem_eq g.board hr hc, hempty,
    Board.setItem_eq g.board p hr hc]

theorem nextPlayer_is_player (s : State) : (nextPlayer s).is_player = true := by
  cases s <;> rfl

theorem Game.current_player_of_player {g : Game}
    (h : g._current_player_state.is_player = true) :
    g.current_player = g._current_player_state := by
  simp [Game.current_player, h]

/-! ## Claim C10 -/

/-- C10: on a game whose move history is empty, the no-argument `undo()`
raises `IndexError` (from indexing `self._history[-1]` on the empty
history), not `IllegalMove`; the exception is raised before any
mutation, so the game state is unchanged. -/
theorem C10_undo_empty_history (g : Game) (h : g.history = []) :
    g.undo = .error .IndexError := by
  unfold Game.undo
  rw [h]
  rfl

/-- Witness for C10 at the fresh game `Game(X, 3)`. -/
theorem C10_witness :
    (Game.init .X 3).history = [] ∧
    (Game.init .X 3).undo = .error .IndexError :=
  ⟨rfl, C10_undo_empty_history (Game.init .X 3) rfl⟩

/-! ## Claim C1 -/

/-- C1 counterexample: on the fresh (hence reachable) game `Game(X, 3)`
the current player is `X`, yet `move(0, 0, player=O)` succeeds and
records the move — `move()` performs no turn-order check, contrary to
the claim that an explicit player different from `current_player` fails
with `IllegalMove`. -/
theorem C1_counterexample :
    (Game.init .X 3).current_player = .X ∧
    some State.O ≠ some (Game.init .X 3).current_player ∧
    ∃ g', (Game.init .X 3).move_rc 0 0 (some .O) = .ok g' ∧
      g'.current_player = .X ∧ g'.history = [⟨(0, 0), some .O⟩] := by
  refine ⟨rfl, by decide, ?_⟩
  exact ⟨_, rfl, rfl, rfl⟩

/-- C1 (amended): `Game.move` performs no turn-order check.  For every
game state and every explicit valid player `p` — in particular one
different from `current_player` — a `move(row, column, player=p)` whose
target cell is empty does not fail with `IllegalMove`: the move is
accepted and applied as `p`, and `current_player` is then set to
`next(p)`; turn alternation arises only from defaulting an omitted
player to `current_player` and advancing afterwards. -/
theorem C1_move_has_no_turn_check (g : Game) (row col : Int) (p : State)
    (hpl : p.is_player = true) ( _hne : p ≠ g.current_player)
    {r c : Nat}
    (hr : pyIdx g.board.size row = some r)
    (hc : pyIdx g.board.size col = some c)
    (hempty : g.board.cell r c = .N) :
    ∃ g', g.move_rc row col (some p) = .ok g' ∧
      g'.current_player = nextPlayer p ∧
      g'.board.cell r c = p ∧
      g'.history = g.history ++ [⟨(row, col), some p⟩] := by
  unfold Game.move_rc
  simp only [Option.getD_some]
  have happ := Game.apply_move_ok g ⟨(row, col), some p⟩ p rfl hpl hr hc hempty
  rw [happ]
  refine ⟨_, rfl, ?_, by simp, rfl⟩
  rw [Game.current_player_of_player (by exact nextPlayer_is_player _)]
  simp [Game.next_player, Game.current_player, hpl]

/-- Witness for C1 (amended) at the fresh game and explicit player `O`. -/
theorem C1_witness :
    ∃ g', (Game.init .X 3).move_rc 0 0 (some .O) = .ok g' ∧
      g'.current_player = nextPlayer .O ∧
      g'.board.cell 0 0 = .O ∧
      g'.history = (Game.init .X 3).history ++ [⟨(0, 0), some .O⟩] :=
  C1_move_has_no_turn_check (Game.init .X 3) 0 0 .O rfl (by decide)
    (r := 0) (c := 0) rfl rfl rfl

/-! ## Claim C3 -/

/-- C3: `apply_move` rejects, in order, an invalid player (with the
"not a valid player" `IllegalMove`, regardless of the target cell) and
an occupied target cell (with the "Field already set" `IllegalMove`
naming the occupant); both raises happen before any mutation, so the
board, the history and `current_player` are unchanged on failure. -/
theorem C3_apply_move_atomic (g : Game) (m : Move) :
    ((m.player = none ∨ ∃ p, m.player = some p ∧ p.is_player = false) →
      g.apply_move m = .error (.IllegalMove m (invalidPlayerMsg m.player))) ∧
    (∀ p s, m.player = some p → p.is_player = true →
      g.board.getItem m.index = some s → s ≠ .N →
      g.apply_move m = .error (.IllegalMove m (occupiedMsg s))) := by
  constructor
  · rintro (hnone | ⟨p, hp, hbad⟩)
    · simp [Game.apply_move, hnone]
    · simp [Game.apply_move, hp, hbad]
  · intro p s hp hpl hget hne
    simp [Game.apply_move, hp, hpl, hget, hne]

/-- Witness for C3: a `None` player on the fresh game, and a replay of
the occupied cell `(0, 0)` on the game after `move(0, 0)`. -/
theorem C3_witness :
    (Game.init .X 3).apply_move ⟨(0, 0), none⟩ =
      .error (.IllegalMove ⟨(0, 0), none⟩ (invalidPlayerMsg none)) ∧
    gX00.apply_move ⟨(0, 0), some .O⟩ =
      .error (.IllegalMove ⟨(0, 0), some .O⟩ (occupiedMsg .X)) := by
  constructor
  · exact (C3_apply_move_atomic (Game.init .X 3) ⟨(0, 0), none⟩).1 (Or.inl rfl)
  · exact (C3_apply_move_atomic gX00 ⟨(0, 0), some .O⟩).2 .O .X rfl rfl rfl
      (by decide)

/-! ## Claim C9 -/

/-- C9 counterexample: the claim quantifies over every Move whose row or
column lies in `[-N, -1]`; for the move `(-1, 7)` on the fresh 3×3 game
the wrapped cell `(-1 mod 3, 7 mod 3) = (2, 1)` is empty, yet
`apply_move` raises `IndexError` (column 7 is outside Python's list
range `[-3, 3)`) instead of succeeding. -/
theorem C9_counterexample :
    (-(3 : Int) ≤ -1 ∧ (-1 : Int) ≤ -1) ∧
    ((-1 : Int) % 3 = 2 ∧ (7 : Int) % 3 = 1) ∧
    (Game.init .X 3).board.cell 2 1 = .N ∧
    (Game.init .X 3).apply_move ⟨(-1, 7), some .X⟩ = .error .IndexError :=
  ⟨⟨by decide, by decide⟩, ⟨by decide, by decide⟩, rfl, rfl⟩

/-- C9 (amended): board indexing performs no bounds check and negative
in-range coordinates wrap.  For every game and Move with a valid player
whose row and column both lie in `[-N, N)` with at least one in
`[-N, -1]`, if the wrapped cell `(row mod N, column mod N)` is empty
then `apply_move` succeeds without `IllegalMove`, writes the player to
the wrapped cell, and appends the Move with its original negative
coordinates to the history; a coordinate outside `[-N, N)` raises
`IndexError`, never `IllegalMove`. -/
theorem C9_negative_index_wrap :
    (∀ (g : Game) (m : Move) (row col : Int) (p : State),
      m.index = (row, col) → m.player = some p → p.is_player = true →
      -(g.board.size : Int) ≤ row → row < (g.board.size : Int) →
      -(g.board.size : Int) ≤ col → col < (g.board.size : Int) →
      (row < 0 ∨ col < 0) →
      g.board.cell (row % (g.board.size : Int)).toNat
                   (col % (g.board.size : Int)).toNat = .N →
      ∃ g', g.apply_move m = .ok g' ∧
        g'.board.cell (row % (g.board.size : Int)).toNat
                      (col % (g.board.size : Int)).toNat = p ∧
        g'.history = g.history ++ [m] ∧
        ∀ i j, (i ≠ (row % (g.board.size : Int)).toNat ∨
                j ≠ (col % (g.board.size : Int)).toNat) →
          g'.board.cell i j = g.board.cell i j) ∧
    (∀ (g : Game) (m : Move) (p : State),
      m.player = some p → p.is_player = true →
      g.board.getItem m.index = none →
      g.apply_move m = .error .IndexError) := by
  constructor
  · intro g m row col p hidx hp hpl hr0 hr1 hc0 hc1 _hneg hempty
    have hr : pyIdx g.board.size m.index.1 =
        some ((row % (g.board.size : Int)).toNat) := by
      rw [hidx]; exact pyIdx_emod hr0 hr1
    have hc : pyIdx g.board.size m.index.2 =
        some ((col % (g.board.size : Int)).toNat) := by
      rw [hidx]; exact pyIdx_emod hc0 hc1
    have happ := Game.apply_move_ok g m p hp hpl hr hc hempty
    refine ⟨_, happ, by simp, rfl, ?_⟩
    intro i j hij
    simp only []
    rw [if_neg (by tauto)]
  · intro g m p hp hpl hget
    simp [Game.apply_move, hp, hpl, hget]

/-- Witness for C9 at the move `(-1, -1)` on the fresh 3×3 game (both
branches of the theorem). -/
theorem C9_witness :
    (∃ g', (Game.init .X 3).apply_move ⟨(-1, -1), some .X⟩ = .ok g' ∧
      g'.board.cell ((-1 : Int) % ((Game.init .X 3).board.size : Int)).toNat
                    ((-1 : Int) % ((Game.init .X 3).board.size : Int)).toNat = .X ∧
      g'.history = (Game.init .X 3).history ++ [⟨(-1, -1), some .X⟩] ∧
      ∀ i j, (i ≠ ((-1 : Int) % ((Game.init .X 3).board.size : Int)).toNat ∨
              j ≠ ((-1 : Int) % ((Game.init .X 3).board.size : Int)).toNat) →
        g'.board.cell i j = (Game.init .X 3).board.cell i j) ∧
    (Game.init .X 3).apply_move ⟨(-1, 7), some .O⟩ = .error .IndexError := by
  constructor
  · exact C9_negative_index_wrap.1 (Game.init .X 3) ⟨(-1, -1), some .X⟩
      (-1) (-1) .X rfl rfl rfl (by decide) (by decide) (by decide) (by decide)
      (Or.inl (by decide)) rfl
  · exact C9_negative_index_wrap.2 (Game.init .X 3) ⟨(-1, 7), some .O⟩ .O
      rfl rfl rfl

/-! ## Claim C8 -/

/-- C8: for every N×N board, `all_win_conditions` returns exactly
`2N + 2` lines — the `N` rows, then the `N` columns, then the two
diagonals, in that order — and every line contains exactly `N`
fields. -/
theorem C8_all_win_conditions (b : Board) :
    b.all_win_conditions = b.rows ++ b.columns ++ b.diagonals ∧
    b.rows.length = b.size ∧
    b.columns.length = b.size ∧
    b.diagonals.length = 2 ∧
    b.all_win_conditions.length = 2 * b.size + 2 ∧
    ∀ line ∈ b.all_win_conditions, line.length = b.size := by
  refine ⟨rfl, by simp [Board.rows], by simp [Board.columns], rfl, ?_, ?_⟩
  · simp [Board.all_win_conditions, Board.rows, Board.columns, Board.diagonals]
    ring
  · intro line hline
    simp only [Board.all_win_conditions, List.mem_append] at hline
    rcases hline with (h | h) | h
    · simp only [Board.rows, List.mem_map, List.mem_range] at h
      obtain ⟨i, _, rfl⟩ := h
      simp [Board.rowFields]
    · simp only [Board.columns, List.mem_map, List.mem_range] at h
      obtain ⟨i, _, rfl⟩ := h
      simp
    · simp only [Board.diagonals, List.mem_cons, List.mem_singleton,
        List.not_mem_nil, or_false] at h
      rcases h with rfl | rfl <;> simp

/-- Witness for C8 at the 3×3 board, discharging the membership
hypothesis of the per-line length statement at row 0. -/
theorem C8_witness :
    (Board.init 3).all_win_conditions.length = 2 * (Board.init 3).size + 2 ∧
    ((Board.init 3).rowFields 0).length = (Board.init 3).size := by
  have h := C8_all_win_conditions (Board.init 3)
  refine ⟨h.2.2.2.2.1, h.2.2.2.2.2 _ ?_⟩
  decide

/-! ## Claim C7 -/

theorem moveCallbackLoop_spec (m : Move) (l : List MoveNode) :
    (∃ pre ch post, l = pre ++ ch :: post ∧
      (ch.index = m.index ∧ ch.player = m.player) ∧
      (∀ x ∈ pre, ¬(x.index = m.index ∧ x.player = m.player)) ∧
      TreeAI.moveCallbackLoop m l = .ok ch) ∨
    ((∀ x ∈ l, ¬(x.index = m.index ∧ x.player = m.player)) ∧
      TreeAI.moveCallbackLoop m l = .error .CannotComputeMove) := by
  induction l with
  | nil => exact Or.inr ⟨by simp, rfl⟩
  | cons c rest ih =>
    by_cases h : c.index = m.index ∧ c.player = m.player
    · left
      refine ⟨[], c, rest, by simp, h, by simp, ?_⟩
      have hcond : (c.index == m.index && c.player == m.player) = true := by
        simp only [Bool.and_eq_true, beq_iff_eq]
        exact h
      simp only [TreeAI.moveCallbackLoop]
      rw [if_pos hcond]
    · have hcond : ¬(c.index == m.index && c.player == m.player) = true := by
        simp only [Bool.and_eq_true, beq_iff_eq]
        exact h
      have hloop : TreeAI.moveCallbackLoop m (c :: rest) =
          TreeAI.moveCallbackLoop m rest := by
        simp only [TreeAI.moveCallbackLoop]
        rw [if_neg hcond]
      rcases ih with ⟨pre, ch, post, heq, hch, hpre, hres⟩ | ⟨hall, hres⟩
      · left
        refine ⟨c :: pre, ch, post, by simp [heq], hch, ?_, hloop ▸ hres⟩
        intro x hx
        rcases List.mem_cons.mp hx with rfl | hx
        · exact h
        · exact hpre x hx
      · right
        refine ⟨?_, hloop ▸ hres⟩
        intro x hx
        rcases List.mem_cons.mp hx with rfl | hx
        · exact h
        · exact hall x hx

/-- C7: for every cursor node and move, `TreeAI.move_callback` advances
the cursor to the first child whose index equals the move's index and
whose player equals the move's player, and raises `CannotComputeMove`
(before any assignment, so the cursor is unchanged) when no child of
the current node matches both. -/
theorem C7_move_callback (cur : MoveNode) (m : Move) :
    (∃ pre ch post, cur.children = pre ++ ch :: post ∧
      (ch.index = m.index ∧ ch.player = m.player) ∧
      (∀ x ∈ pre, ¬(x.index = m.index ∧ x.player = m.player)) ∧
      TreeAI.move_callback cur m = .ok ch) ∨
    ((∀ x ∈ cur.children, ¬(x.index = m.index ∧ x.player = m.player)) ∧
      TreeAI.move_callback cur m = .error .CannotComputeMove) :=
  moveCallbackLoop_spec m cur.children

/-- Instantiation of C7 at a concrete two-child cursor. -/
theorem C7_witness :
    (∃ pre ch post, curNode.children = pre ++ ch :: post ∧
      (ch.index = Move.index ⟨(0, 1), some .X⟩ ∧
        ch.player = Move.player ⟨(0, 1), some .X⟩) ∧
      (∀ x ∈ pre, ¬(x.index = Move.index ⟨(0, 1), some .X⟩ ∧
        x.player = Move.player ⟨(0, 1), some .X⟩)) ∧
      TreeAI.move_callback curNode ⟨(0, 1), some .X⟩ = .ok ch) ∨
    ((∀ x ∈ curNode.children, ¬(x.index = Move.index ⟨(0, 1), some .X⟩ ∧
        x.player = Move.player ⟨(0, 1), some .X⟩)) ∧
      TreeAI.move_callback curNode ⟨(0, 1), some .X⟩ =
        .error .CannotComputeMove) :=
  C7_move_callback curNode ⟨(0, 1), some .X⟩

/-! ## Claim C6 -/

/-- C6: undo/redo round trip on the board.  For every game whose most
recent history entry is a Move with a valid player recorded at its own
(in-range) cell, `undo_move` on that move succeeds and does not change
`current_player`, and re-playing a Move with the same index and the
same player via `move()` restores every cell of the board to its
pre-undo state. -/
theorem C6_undo_redo_roundtrip (g : Game) (m : Move) (p : State)
    (hlast : g.history.getLast? = some m)
    (hp : m.player = some p) (hpl : p.is_player = true)
    (hcell : g.board.getItem m.index = some p) :
    ∃ g1, g.undo_move m = .ok g1 ∧
      g1._current_player_state = g._current_player_state ∧
      g1.current_player = g.current_player ∧
      ∃ g2, g1.move m = .ok g2 ∧
        ∀ i j, g2.board.cell i j = g.board.cell i j := by
  have hmem : m ∈ g.history := List.mem_of_getLast?_eq_some hlast
  have hcont : g.history.contains m = true := List.elem_eq_true_of_mem hmem
  obtain ⟨r, c, hr, hc, hco⟩ := Board.getItem_some_elim g.board hcell
  have hset := Board.setItem_eq g.board State.N hr hc
  unfold Game.undo_move
  rw [if_neg (by simpa using hmem), hset]
  refine ⟨_, rfl, rfl, rfl, ?_⟩
  unfold Game.move
  simp only [hp]
  have happ := Game.apply_move_ok
    { board := { size := g.board.size,
                 cell := fun i j => if i = r ∧ j = c then State.N else g.board.cell i j },
      _initial_player := g._initial_player,
      _current_player_state := g._current_player_state,
      history := g.history.erase m }
    m p hp hpl hr hc (by simp)
  rw [happ]
  refine ⟨_, rfl, ?_⟩
  intro i j
  by_cases hij : i = r ∧ j = c
  · obtain ⟨rfl, rfl⟩ := hij
    simp [hco.symm]
  · simp only []
    rw [if_neg hij, if_neg hij]

/-- Witness for C6 at the game reached by `move(0, 0)` from `Game(X, 3)`. -/
theorem C6_witness :
    ∃ g1, gX00.undo_move ⟨(0, 0), some .X⟩ = .ok g1 ∧
      g1._current_player_state = gX00._current_player_state ∧
      g1.current_player = gX00.current_player ∧
      ∃ g2, g1.move ⟨(0, 0), some .X⟩ = .ok g2 ∧
        ∀ i j, g2.board.cell i j = gX00.board.cell i j :=
  C6_undo_redo_roundtrip gX00 ⟨(0, 0), some .X⟩ .X rfl rfl rfl rfl

/-! ## Claim C4 -/

/-- C4: `TreeAI.compute_score` satisfies, in exact integer arithmetic
with floor division, the claimed recursion: 1100 when the node's stored
winner is the AI's own player; -1000 when it is the opponent;
`min(1000, (sum of the children's scores) // 2) - 1` for a node with a
non-empty children list and no winner; and -100 for a node with no
winner and no children (stalemate leaf). -/
theorem C4_compute_score (ai : State) (hai : ai.is_player = true)
    (idx : Int × Int) (pl winner : Option State) (children : List MoveNode) :
    (winner = some ai →
      TreeAI.compute_score ai (.mk idx pl winner children) = 1100) ∧
    (winner = some (nextPlayer ai) →
      TreeAI.compute_score ai (.mk idx pl winner children) = -1000) ∧
    (winner = none → children ≠ [] →
      TreeAI.compute_score ai (.mk idx pl winner children) =
        min 1000 (Int.fdiv ((children.map (TreeAI.compute_score ai)).sum) 2) - 1) ∧
    (winner = none → children = [] →
      TreeAI.compute_score ai (.mk idx pl winner children) = -100) := by
  have hne : nextPlayer ai ≠ ai := by
    cases ai
    · decide
    · decide
    · cases hai
  refine ⟨?_, ?_, ?_, ?_⟩
  · rintro rfl
    rw [TreeAI.compute_score]
    rw [if_pos rfl]
  · rintro rfl
    rw [TreeAI.compute_score]
    rw [if_neg (by simp [hne]), if_pos rfl]
  · rintro rfl hch
    rw [TreeAI.compute_score]
    rw [if_neg (by simp), if_neg (by simp),
      if_pos (by simpa using hch)]
    rw [List.attach_map_val children (TreeAI.compute_score ai)]
  · rintro rfl rfl
    rw [TreeAI.compute_score]
    rfl

/-- Witness for C4: all four branches at concrete nodes, with AI
player `X`. -/
theorem C4_witness :
    TreeAI.compute_score .X (.mk (0, 0) (some .X) (some .X) []) = 1100 ∧
    TreeAI.compute_score .X (.mk (0, 0) (some .X) (some .O) []) = -1000 ∧
    TreeAI.compute_score .X (.mk (0, 0) (some .X) none
        [.mk (0, 1) (some .O) (some .O) [], .mk (0, 2) (some .O) none []]) =
      min 1000 (Int.fdiv (([MoveNode.mk (0, 1) (some .O) (some .O) [],
        MoveNode.mk (0, 2) (some .O) none []].map
          (TreeAI.compute_score .X)).sum) 2) - 1 ∧
    TreeAI.compute_score .X (.mk (0, 0) (some .X) none []) = -100 := by
  refine ⟨?_, ?_, ?_, ?_⟩
  · exact (C4_compute_score .X rfl (0, 0) (some .X) (some .X) []).1 rfl
  · exact (C4_compute_score .X rfl (0, 0) (some .X) (some .O) []).2.1 rfl
  · exact (C4_compute_score .X rfl (0, 0) (some .X) none
      [.mk (0, 1) (some .O) (some .O) [], .mk (0, 2) (some .O) none []]).2.2.1
      rfl (by simp)
  · exact (C4_compute_score .X rfl (0, 0) (some .X) none []).2.2.2 rfl rfl

/-! ## Helper lemmas about `listIndex` and win conditions -/

theorem listIndex_none_forall {α : Type} {p : α → Bool} {l : List α}
    (h : listIndex p l = none) : ∀ x ∈ l, p x = false := by
  induction l with
  | nil => intro x hx; cases hx
  | cons a rest ih =>
    unfold listIndex at h
    by_cases hpa : p a = true
    · rw [if_pos hpa] at h; cases h
    · rw [if_neg hpa] at h
      have hrest : listIndex p rest = none := by
        cases hres : listIndex p rest with
        | none => rfl
        | some k => rw [hres] at h; cases h
      intro x hx
      rcases List.mem_cons.mp hx with rfl | hx'
      · exact Bool.eq_false_iff.mpr hpa
      · exact ih hrest x hx'

theorem listIndex_some_getElem {α : Type} {p : α → Bool} {l : List α} {k : Nat}
    (h : listIndex p l = some k) : ∃ x, l[k]? = some x ∧ p x = true := by
  induction l generalizing k with
  | nil => cases h
  | cons a rest ih =>
    unfold listIndex at h
    by_cases hpa : p a = true
    · rw [if_pos hpa] at h
      injection h with h'
      subst h'
      exact ⟨a, by simp, hpa⟩
    · rw [if_neg hpa] at h
      cases hres : listIndex p rest with
      | none => rw [hres] at h; cases h
      | some k' =>
        rw [hres] at h
        injection h with h'
        obtain ⟨x, hx, hpx⟩ := ih hres
        refine ⟨x, ?_, hpx⟩
        rw [← h']
        simpa using hx

theorem listIndex_isSome_of_mem {α : Type} {p : α → Bool} {l : List α} {x : α}
    (hx : x ∈ l) (hpx : p x = true) : ∃ k, listIndex p l = some k := by
  induction l with
  | nil => cases hx
  | cons a rest ih =>
    by_cases hpa : p a = true
    · exact ⟨0, by unfold listIndex; rw [if_pos hpa]⟩
    · rcases List.mem_cons.mp hx with rfl | hx'
      · exact absurd hpx hpa
      · obtain ⟨k, hk⟩ := ih hx'
        exact ⟨k + 1, by unfold listIndex; rw [if_neg hpa, hk]; rfl⟩

/-- Every field of every win condition is the board's field at some
in-range coordinate. -/
theorem Board.wincon_fields (b : Board) :
    ∀ wc ∈ b.all_win_conditions, ∀ f ∈ wc,
      ∃ i j, i < b.size ∧ j < b.size ∧ f = b.field i j := by
  intro wc hwc f hf
  simp only [Board.all_win_conditions, List.mem_append] at hwc
  rcases hwc with (h | h) | h
  · simp only [Board.rows, List.mem_map, List.mem_range] at h
    obtain ⟨i, hi, rfl⟩ := h
    simp only [Board.rowFields, List.mem_map, List.mem_range] at hf
    obtain ⟨j, hj, rfl⟩ := hf
    exact ⟨i, j, hi, hj, rfl⟩
  · simp only [Board.columns, List.mem_map, List.mem_range] at h
    obtain ⟨i, hi, rfl⟩ := h
    simp only [List.mem_map, List.mem_range] at hf
    obtain ⟨r, hr, rfl⟩ := hf
    exact ⟨r, i, hr, hi, rfl⟩
  · simp only [Board.diagonals, List.mem_cons, List.mem_singleton,
      List.not_mem_nil, or_false] at h
    rcases h with rfl | rfl
    · simp only [List.mem_map, List.mem_range] at hf
      obtain ⟨i, hi, rfl⟩ := hf
      exact ⟨i, i, hi, hi, rfl⟩
    · simp only [List.mem_map, List.mem_range] at hf
      obtain ⟨i, hi, rfl⟩ := hf
      exact ⟨b.size - i - 1, i, by omega, hi, rfl⟩

/-- Every win condition has exactly `size` fields. -/
theorem Board.wincon_length (b : Board) :
    ∀ wc ∈ b.all_win_conditions, wc.length = b.size := by
  intro wc hwc
  simp only [Board.all_win_conditions, List.mem_append] at hwc
  rcases hwc with (h | h) | h
  · simp only [Board.rows, List.mem_map, List.mem_range] at h
    obtain ⟨i, _, rfl⟩ := h
    simp [Board.rowFields]
  · simp only [Board.columns, List.mem_map, List.mem_range] at h
    obtain ⟨i, _, rfl⟩ := h
    simp
  · simp only [Board.diagonals, List.mem_cons, List.mem_singleton,
      List.not_mem_nil, or_false] at h
    rcases h with rfl | rfl <;> simp

theorem Board.has_won_iff (b : Board) (p : State) :
    b.has_won p = true ↔
      ∃ wc ∈ b.all_win_conditions, ∀ f ∈ wc, f.state = p := by
  simp [Board.has_won, List.any_eq_true, List.all_eq_true]

theorem Board.is_empty_forall (b : Board) (h : b.is_empty = true)
    {i j : Nat} (hi : i < b.size) (hj : j < b.size) : b.cell i j = .N := by
  have h1 := List.all_eq_true.mp h (b.rowFields i)
    (List.mem_map.mpr ⟨i, List.mem_range.mpr hi, rfl⟩)
  have h2 := List.all_eq_true.mp h1 (b.field i j)
    (List.mem_map.mpr ⟨j, List.mem_range.mpr hj, rfl⟩)
  simpa [Board.field] using h2

/-- Rows are win conditions. -/
theorem Board.rowFields_mem_wincons (b : Board) {i : Nat} (hi : i < b.size) :
    b.rowFields i ∈ b.all_win_conditions := by
  simp only [Board.all_win_conditions, List.mem_append]
  exact Or.inl (Or.inl (List.mem_map.mpr ⟨i, List.mem_range.mpr hi, rfl⟩))

theorem pyIdx_natCast {n k : Nat} (h : k < n) : pyIdx n (k : Int) = some k := by
  rw [pyIdx_of_nonneg (by omega) (by omega)]
  simp

theorem Game.find_move_isSome (g : Game) {row col : Int} {mv : Move}
    (hmem : mv ∈ g.history) (hidx : mv.index = (row, col)) :
    (g.find_move row col).isSome = true := by
  simp only [Game.find_move, List.find?_isSome]
  exact ⟨mv, hmem, by simp [hidx]⟩

theorem Game.collectLineMoves_some (g : Game) (wc : List Field)
    (h : ∀ f ∈ wc, (g.find_move f.index.1 f.index.2).isSome = true) :
    ∃ ms, g.collectLineMoves wc = some ms ∧ ms.length = wc.length := by
  induction wc with
  | nil => exact ⟨[], rfl, rfl⟩
  | cons f rest ih =>
    obtain ⟨mv, hmv⟩ := Option.isSome_iff_exists.mp (h f (List.mem_cons_self f rest))
    obtain ⟨ms, hms, hlen⟩ := ih (fun f' hf' => h f' (List.mem_cons_of_mem f hf'))
    refine ⟨mv :: ms, ?_, by simp [hlen]⟩
    unfold Game.collectLineMoves
    rw [hmv, hms]

theorem Game.winningMovesLoop_spec (g : Game) (p : State)
    (L : List (List Field))
    (hfm : ∀ wc ∈ L, (∀ f ∈ wc, f.state = p) →
      ∀ f ∈ wc, (g.find_move f.index.1 f.index.2).isSome = true) :
    ∃ out, g.winningMovesLoop p L = .ok out ∧
      (out ≠ [] ↔ ∃ wc ∈ L, wc ≠ [] ∧ ∀ f ∈ wc, f.state = p) := by
  induction L with
  | nil =>
    refine ⟨[], rfl, ?_⟩
    simp
  | cons wc rest ih =>
    obtain ⟨out, hout, hiff⟩ := ih (fun wc' h' => hfm wc' (List.mem_cons_of_mem wc h'))
    by_cases hall : (wc.all (fun f => f.state == p)) = true
    · have hallP : ∀ f ∈ wc, f.state = p := by
        intro f hf
        simpa using List.all_eq_true.mp hall f hf
      obtain ⟨ms, hms, hlen⟩ := Game.collectLineMoves_some g wc
        (hfm wc (List.mem_cons_self wc rest) hallP)
      refine ⟨ms ++ out, ?_, ?_, ?_⟩
      · unfold Game.winningMovesLoop
        rw [if_pos hall, hms, hout]
      · intro hne
        by_cases hwce : wc = []
        · have hms0 : ms = [] := by
            apply List.length_eq_zero.mp
            rw [hlen, hwce]
            rfl
          have hone : out ≠ [] := by
            intro hcon
            exact hne (by rw [hms0, hcon]; rfl)
          obtain ⟨wc', hwc', hne', hall'⟩ := hiff.mp hone
          exact ⟨wc', List.mem_cons_of_mem _ hwc', hne', hall'⟩
        · exact ⟨wc, List.mem_cons_self wc rest, hwce, hallP⟩
      · rintro ⟨wc', hwc', hne', hall'⟩
        rcases List.mem_cons.mp hwc' with rfl | hrest
        · have hmsne : ms ≠ [] := by
            intro hcon
            apply hne'
            apply List.length_eq_zero.mp
            rw [← hlen, hcon]
            rfl
          intro hcon
          rw [List.append_eq_nil] at hcon
          exact hmsne hcon.1
        · have hone : out ≠ [] := hiff.mpr ⟨wc', hrest, hne', hall'⟩
          intro hcon
          rw [List.append_eq_nil] at hcon
          exact hone hcon.2
    · refine ⟨out, ?_, ?_⟩
      · unfold Game.winningMovesLoop
        rw [if_neg hall, hout]
      · rw [hiff]
        constructor
        · rintro ⟨wc', hwc', hne', hall'⟩
          exact ⟨wc', List.mem_cons_of_mem _ hwc', hne', hall'⟩
        · rintro ⟨wc', hwc', hne', hall'⟩
          rcases List.mem_cons.mp hwc' with rfl | hrest
          · refine absurd (List.all_eq_true.mpr ?_) hall
            intro f hf
            simpa using hall' f hf
          · exact ⟨wc', hrest, hne', hall'⟩

/-! ## Claim C5 -/

/-- C5 counterexample: the degenerate `Game(X, size=0)` vacuously
satisfies the claim's hypothesis (it has no occupied cells at all), yet
`has_won(X)` is `true` (the two zero-length diagonals are vacuously
all-`X`) while `winning_moves(X)` is the empty list, so the claimed
equivalence fails. -/
theorem C5_counterexample :
    (∀ i j : Nat, i < (Game.init .X 0).board.size →
      j < (Game.init .X 0).board.size →
      (Game.init .X 0).board.cell i j ≠ .N →
      ∃ mv ∈ (Game.init .X 0).history, mv.index = ((i : Int), (j : Int))) ∧
    (Game.init .X 0).board.has_won .X = true ∧
    (Game.init .X 0).winning_moves (some .X) = .ok [] := by
  refine ⟨?_, rfl, rfl⟩
  intro i j hi _ _
  exact absurd hi (by simp [Game.init, Board.init])

/-- C5 (amended): for every Game with a board of size at least 1 whose
occupied cells were all recorded in the history (each occupied cell has
a matching history entry by index) and every valid player `p`,
`winning_moves(p)` returns a non-empty list iff `has_won(p)` is true;
in particular when `p` has no fully-occupied win-condition line the
result is the empty list. -/
theorem C5_winning_moves_iff_has_won (g : Game) (p : State)
    (hp : p.is_player = true) (hsz : 1 ≤ g.board.size)
    (hist : ∀ i j : Nat, i < g.board.size → j < g.board.size →
      g.board.cell i j ≠ .N →
      ∃ mv ∈ g.history, mv.index = ((i : Int), (j : Int))) :
    ((∃ l, g.winning_moves (some p) = .ok l ∧ l ≠ []) ↔
      g.board.has_won p = true) ∧
    (g.board.has_won p = false → g.winning_moves (some p) = .ok []) := by
  have hpn : p ≠ State.N := by cases p <;> simp_all [State.is_player]
  have hfm : ∀ wc ∈ g.board.all_win_conditions, (∀ f ∈ wc, f.state = p) →
      ∀ f ∈ wc, (g.find_move f.index.1 f.index.2).isSome = true := by
    intro wc hwc hall f hf
    obtain ⟨i, j, hi, hj, rfl⟩ := Board.wincon_fields g.board wc hwc f hf
    have hcell : g.board.cell i j = p := hall _ hf
    obtain ⟨mv, hmv, hidx⟩ := hist i j hi hj (by rw [hcell]; exact hpn)
    simp only [Board.field]
    exact Game.find_move_isSome g hmv hidx
  obtain ⟨out, hout, hiff⟩ := Game.winningMovesLoop_spec g p _ hfm
  have hwm : g.winning_moves (some p) =
      g.winningMovesLoop p g.board.all_win_conditions := rfl
  constructor
  · constructor
    · rintro ⟨l, hl, hlne⟩
      rw [hwm, hout] at hl
      injection hl with hl'
      subst hl'
      obtain ⟨wc, hwc, _, hall⟩ := hiff.mp hlne
      exact (Board.has_won_iff g.board p).mpr ⟨wc, hwc, hall⟩
    · intro hw
      obtain ⟨wc, hwc, hall⟩ := (Board.has_won_iff g.board p).mp hw
      have hlen := Board.wincon_length g.board wc hwc
      have hwcne : wc ≠ [] := by
        intro hcon
        rw [hcon] at hlen
        simp at hlen
        omega
      exact ⟨out, hwm ▸ hout, hiff.mpr ⟨wc, hwc, hwcne, hall⟩⟩
  · intro hnw
    rw [hwm, hout]
    have hout0 : out = [] := by
      by_contra hne
      obtain ⟨wc, hwc, _, hall⟩ := hiff.mp hne
      rw [(Board.has_won_iff g.board p).mpr ⟨wc, hwc, hall⟩] at hnw
      cases hnw
    rw [hout0]

/-- Witness for C5 at the game reached by `move(0, 0)` from
`Game(X, 3)`, whose one occupied cell is recorded in the history. -/
theorem C5_witness :
    ((∃ l, gX00.winning_moves (some .X) = .ok l ∧ l ≠ []) ↔
      gX00.board.has_won .X = true) ∧
    (gX00.board.has_won .X = false → gX00.winning_moves (some .X) = .ok []) := by
  refine C5_winning_moves_iff_has_won gX00 .X rfl (by decide) ?_
  intro i j _ _ hc
  by_cases h00 : i = 0 ∧ j = 0
  · obtain ⟨rfl, rfl⟩ := h00
    exact ⟨⟨(0, 0), some .X⟩, by simp [gX00], rfl⟩
  · exact absurd (by simp [gX00, h00]) hc

/-! ## Helper lemmas for the rule-based AI -/

/-- A state that is neither the opponent nor empty is the AI's own. -/
theorem state_eq_own (ai s : State) (hai : ai.is_player = true)
    (h1 : (nextPlayer ai == s) = false) (h2 : (s == State.N) = false) :
    s = ai := by
  cases ai <;> cases s <;> simp_all [nextPlayer, State.is_player]

/-- `Move(wincon[states.index(N)].index, ai)` targets an empty in-range
cell whenever the fields of the line are in-range board fields. -/
theorem move_at_index_good (b : Board) (ai : State) (wc : List Field) (k : Nat)
    (hwc : ∀ f ∈ wc, ∃ i j, i < b.size ∧ j < b.size ∧ f = b.field i j)
    (hk : listIndex (fun s => s == State.N) (wc.map (·.state)) = some k) :
    targetsEmptyCell b ai ⟨(wc.getD k dfltField).index, some ai⟩ := by
  obtain ⟨s, hs, hps⟩ := listIndex_some_getElem hk
  rw [List.getElem?_map] at hs
  cases hf : wc[k]? with
  | none => rw [hf] at hs; cases hs
  | some f =>
    rw [hf] at hs
    simp only [Option.map_some'] at hs
    injection hs with hs'
    have hsN : s = State.N := by simpa using hps
    obtain ⟨i, j, hi, hj, hfeq⟩ := hwc f (List.getElem?_mem hf)
    have hgd : wc.getD k dfltField = f := by
      rw [List.getD_eq_getElem?_getD, hf]
      rfl
    refine ⟨rfl, i, j, hi, hj, ?_, ?_⟩
    · rw [hgd, hfeq]
      rfl
    · have hfN : f.state = State.N := hs'.trans hsN
      rw [hfeq] at hfN
      exact hfN

theorem ExplicitAI.winningMoveLoop_spec (b : Board) (ai : State) (minOcc : Int)
    (hai : ai.is_player = true) (L : List (List Field))
    (hgood : ∀ wc ∈ L, ∀ f ∈ wc, ∃ i j, i < b.size ∧ j < b.size ∧ f = b.field i j)
    (hnall : ∀ wc ∈ L, ¬ ∀ f ∈ wc, f.state = ai) :
    ExplicitAI.winningMoveLoop ai minOcc L = .ok none ∨
    ∃ m, ExplicitAI.winningMoveLoop ai minOcc L = .ok (some m) ∧
      targetsEmptyCell b ai m := by
  induction L with
  | nil => exact Or.inl rfl
  | cons wc rest ih =>
    have ihr := ih (fun wc' h' => hgood wc' (List.mem_cons_of_mem _ h'))
      (fun wc' h' => hnall wc' (List.mem_cons_of_mem _ h'))
    by_cases hskip : ((wc.map (·.state)).any (fun s => nextPlayer ai == s)) = true
    · rw [ExplicitAI.winningMoveLoop, if_pos hskip]
      exact ihr
    · by_cases hcnt : minOcc ≤ (((wc.map (·.state)).count ai : Nat) : Int)
      · cases hidx : listIndex (fun s => s == State.N) (wc.map (·.state)) with
        | some k =>
          right
          refine ⟨_, ?_, move_at_index_good b ai wc k
            (hgood wc (List.mem_cons_self _ _)) hidx⟩
          rw [ExplicitAI.winningMoveLoop, if_neg hskip, if_pos hcnt, hidx]
        | none =>
          exfalso
          apply hnall wc (List.mem_cons_self _ _)
          intro f hf
          have hfs : f.state ∈ wc.map (·.state) := List.mem_map_of_mem _ hf
          have hno : (nextPlayer ai == f.state) = false := by
            by_contra hcon
            exact hskip (List.any_eq_true.mpr ⟨f.state, hfs, by simpa using hcon⟩)
          exact state_eq_own ai f.state hai hno (listIndex_none_forall hidx _ hfs)
      · rw [ExplicitAI.winningMoveLoop, if_neg hskip, if_neg hcnt]
        exact ihr

/-- `winningMoveLoop` can only raise `ValueError`. -/
theorem ExplicitAI.winningMoveLoop_error (ai : State) (minOcc : Int)
    (L : List (List Field)) {e : Err}
    (h : ExplicitAI.winningMoveLoop ai minOcc L = .error e) : e = .ValueError := by
  induction L with
  | nil => cases h
  | cons wc rest ih =>
    rw [ExplicitAI.winningMoveLoop] at h
    by_cases hskip : ((wc.map (·.state)).any (fun s => nextPlayer ai == s)) = true
    · rw [if_pos hskip] at h
      exact ih h
    · rw [if_neg hskip] at h
      by_cases hcnt : minOcc ≤ (((wc.map (·.state)).count ai : Nat) : Int)
      · rw [if_pos hcnt] at h
        cases hidx : listIndex (fun s => s == State.N) (wc.map (·.state)) with
        | some k => rw [hidx] at h; cases h
        | none =>
          rw [hidx] at h
          injection h with h'
          exact h'.symm
      · rw [if_neg hcnt] at h
        exact ih h

theorem ExplicitAI.defensiveMoveLoop_spec (b : Board) (ai : State) (minOcc : Int)
    (L : List (List Field))
    (hgood : ∀ wc ∈ L, ∀ f ∈ wc, ∃ i j, i < b.size ∧ j < b.size ∧ f = b.field i j) :
    ExplicitAI.defensiveMoveLoop ai minOcc L = .ok none ∨
    ∃ m, ExplicitAI.defensiveMoveLoop ai minOcc L = .ok (some m) ∧
      targetsEmptyCell b ai m := by
  induction L with
  | nil => exact Or.inl rfl
  | cons wc rest ih =>
    have ihr := ih (fun wc' h' => hgood wc' (List.mem_cons_of_mem _ h'))
    by_cases hskip : ((wc.map (·.state)).all (fun s => s != State.N)) = true
    · rw [ExplicitAI.defensiveMoveLoop, if_pos hskip]
      exact ihr
    · by_cases hcnt : minOcc ≤ (((wc.map (·.state)).count (nextPlayer ai) : Nat) : Int)
      · have hex : ∃ s ∈ wc.map (·.state), (s == State.N) = true := by
          by_contra hcon
          push_neg at hcon
          refine hskip (List.all_eq_true.mpr ?_)
          intro s hsmem
          have h1 := hcon s hsmem
          simp only [beq_iff_eq] at h1
          simpa using h1
        obtain ⟨s, hsmem, hsN⟩ := hex
        obtain ⟨k, hk⟩ :=
          listIndex_isSome_of_mem (p := fun s => s == State.N) hsmem hsN
        right
        refine ⟨_, ?_, move_at_index_good b ai wc k
          (hgood wc (List.mem_cons_self _ _)) hk⟩
        rw [ExplicitAI.defensiveMoveLoop, if_neg hskip, if_pos hcnt, hk]
      · rw [ExplicitAI.defensiveMoveLoop, if_neg hskip, if_neg hcnt]
        exact ihr

/-- `defensiveMoveLoop` never actually raises: on the branch that reads
`states.index(N)` the line is known to contain an empty field. -/
theorem ExplicitAI.defensiveMoveLoop_no_error (ai : State) (minOcc : Int)
    (L : List (List Field)) {e : Err}
    (h : ExplicitAI.defensiveMoveLoop ai minOcc L = .error e) : e = .ValueError := by
  induction L with
  | nil => cases h
  | cons wc rest ih =>
    rw [ExplicitAI.defensiveMoveLoop] at h
    by_cases hskip : ((wc.map (·.state)).all (fun s => s != State.N)) = true
    · rw [if_pos hskip] at h
      exact ih h
    · rw [if_neg hskip] at h
      by_cases hcnt : minOcc ≤ (((wc.map (·.state)).count (nextPlayer ai) : Nat) : Int)
      · rw [if_pos hcnt] at h
        cases hidx : listIndex (fun s => s == State.N) (wc.map (·.state)) with
        | some k => rw [hidx] at h; cases h
        | none =>
          rw [hidx] at h
          injection h with h'
          exact h'.symm
      · rw [if_neg hcnt] at h
        exact ih h

theorem ExplicitAI.opportunisticLoop_spec (b : Board) (ai : State)
    (L : List (List Field))
    (hgood : ∀ wc ∈ L, ∀ f ∈ wc, ∃ i j, i < b.size ∧ j < b.size ∧ f = b.field i j) :
    ExplicitAI.opportunisticLoop ai L = none ∨
    ∃ m, ExplicitAI.opportunisticLoop ai L = some m ∧ targetsEmptyCell b ai m := by
  induction L with
  | nil => exact Or.inl rfl
  | cons wc rest ih =>
    have ihr := ih (fun wc' h' => hgood wc' (List.mem_cons_of_mem _ h'))
    by_cases hskip : ((wc.map (·.state)).any (fun s => s == nextPlayer ai)) = true
    · rw [ExplicitAI.opportunisticLoop, if_pos hskip]
      exact ihr
    · cases hidx : listIndex (fun s => s == State.N) (wc.map (·.state)) with
      | some k =>
        right
        refine ⟨_, ?_, move_at_index_good b ai wc k
          (hgood wc (List.mem_cons_self _ _)) hidx⟩
        rw [ExplicitAI.opportunisticLoop, if_neg hskip, hidx]
      | none =>
        rw [ExplicitAI.opportunisticLoop, if_neg hskip, hidx]
        exact ihr

theorem ExplicitAI.fallbackLoop_spec (b : Board) (ai : State)
    (L : List (List Field))
    (hgood : ∀ wc ∈ L, ∀ f ∈ wc, ∃ i j, i < b.size ∧ j < b.size ∧ f = b.field i j) :
    (ExplicitAI.fallbackLoop ai L = none ∧
      ∀ wc ∈ L, ∀ f ∈ wc, f.state ≠ State.N) ∨
    ∃ m, ExplicitAI.fallbackLoop ai L = some m ∧ targetsEmptyCell b ai m := by
  induction L with
  | nil =>
    left
    exact ⟨rfl, by intro wc h; cases h⟩
  | cons wc rest ih =>
    have ihr := ih (fun wc' h' => hgood wc' (List.mem_cons_of_mem _ h'))
    cases hidx : listIndex (fun s => s == State.N) (wc.map (·.state)) with
    | some k =>
      right
      refine ⟨_, ?_, move_at_index_good b ai wc k
        (hgood wc (List.mem_cons_self _ _)) hidx⟩
      rw [ExplicitAI.fallbackLoop, hidx]
    | none =>
      have hnoN := listIndex_none_forall hidx
      rcases ihr with ⟨hres, hall⟩ | ⟨m, hm, hgoodm⟩
      · left
        constructor
        · rw [ExplicitAI.fallbackLoop, hidx]
          exact hres
        · intro wc' hwc' f hf
          rcases List.mem_cons.mp hwc' with rfl | hrest
          · have := hnoN _ (List.mem_map_of_mem _ hf)
            simpa using this
          · exact hall wc' hrest f hf
      · right
        refine ⟨m, ?_, hgoodm⟩
        rw [ExplicitAI.fallbackLoop, hidx]
        exact hm

/-- A board is full when no field of any win condition is empty. -/
theorem Board.is_full_of_no_empty (b : Board)
    (h : ∀ wc ∈ b.all_win_conditions, ∀ f ∈ wc, f.state ≠ State.N) :
    b.is_full = true := by
  apply List.all_eq_true.mpr
  intro row hrow
  apply List.all_eq_true.mpr
  intro f hf
  have hmem : row ∈ b.all_win_conditions := by
    simp only [Board.all_win_conditions, List.mem_append]
    exact Or.inl (Or.inl hrow)
  have := h row hmem f hf
  simpa using this

/-! ## Claim C2 -/

/-- C2 counterexample: on a 3×3 board whose top row is all `X` (and
which still has empty cells), `ExplicitAI.next_move` for player `X`
raises an uncaught `ValueError` — `_winning_move` finds a line with no
opponent marks and at least `size-1` own marks but no empty field, and
its `states.index(N)` is not guarded — so the AI does raise even though
a legal move exists. -/
theorem C2_counterexample :
    topRowX.cell 1 1 = .N ∧ 1 < topRowX.size ∧
    ExplicitAI.next_move .X false false topRowX = .error .ValueError :=
  ⟨rfl, by decide, rfl⟩

/-- C2 (amended): provided the AI's player has not already completed a
winning line, `ExplicitAI.next_move` raises no exception while a legal
move exists: for every board with at least one empty cell (and any
outcome of the two random corner coins) it returns a Move played as the
AI's player that targets an empty cell; and `CannotComputeMove` is
raised only when the board is full. -/
theorem C2_next_move_total :
    (∀ (ai : State) (ci cj : Bool) (b : Board),
      ai.is_player = true →
      (∃ i j, i < b.size ∧ j < b.size ∧ b.cell i j = .N) →
      b.has_won ai = false →
      ∃ m, ExplicitAI.next_move ai ci cj b = .ok m ∧ targetsEmptyCell b ai m) ∧
    (∀ (ai : State) (ci cj : Bool) (b : Board),
      ExplicitAI.next_move ai ci cj b = .error .CannotComputeMove →
      b.is_full = true) := by
  constructor
  · intro ai ci cj b hai hfree hnw
    obtain ⟨i0, j0, hi0, hj0, hc0⟩ := hfree
    have hsz : 1 ≤ b.size := by omega
    unfold ExplicitAI.next_move
    by_cases hemp : b.is_empty = true
    · rw [if_pos hemp]
      refine ⟨_, rfl, rfl, ?_⟩
      refine ⟨if ci then 0 else b.size - 1, if cj then 0 else b.size - 1,
        ?_, ?_, ?_, ?_⟩
      · cases ci <;> simp <;> omega
      · cases cj <;> simp <;> omega
      · cases ci <;> cases cj <;> simp [ExplicitAI.starting_move] <;> omega
      · exact Board.is_empty_forall b hemp
          (by cases ci <;> simp <;> omega)
          (by cases cj <;> simp <;> omega)
    · rw [if_neg hemp]
      have hgood := Board.wincon_fields b
      have hnall : ∀ wc ∈ b.all_win_conditions, ¬ ∀ f ∈ wc, f.state = ai := by
        intro wc hwc hall
        rw [(Board.has_won_iff b ai).mpr ⟨wc, hwc, hall⟩] at hnw
        cases hnw
      rcases ExplicitAI.winningMoveLoop_spec b ai ((b.size : Int) - 1) hai
          b.all_win_conditions hgood hnall with hok | ⟨m1, hm1, hgood1⟩
      · simp only [hok]
        rcases ExplicitAI.defensiveMoveLoop_spec b ai ((b.size : Int) - 1)
            b.all_win_conditions hgood with hok2 | ⟨m2, hm2, hgood2⟩
        · simp only [hok2]
          have hcdiv : b.size / 2 < b.size := Nat.div_lt_self (by omega) (by omega)
          have hcast : (b.size : Int) / 2 = ((b.size / 2 : Nat) : Int) := by omega
          have hget : b.getItem ((b.size : Int) / 2, (b.size : Int) / 2) =
              some (b.cell (b.size / 2) (b.size / 2)) := by
            apply Board.getItem_eq
            · rw [hcast]
              exact pyIdx_natCast hcdiv
            · rw [hcast]
              exact pyIdx_natCast hcdiv
          simp only [hget]
          by_cases hcen : (b.cell (b.size / 2) (b.size / 2) == State.N) = true
          · rw [if_pos hcen]
            refine ⟨_, rfl, rfl, b.size / 2, b.size / 2, hcdiv, hcdiv, ?_,
              by simpa using hcen⟩
            show ((b.size : Int) / 2, (b.size : Int) / 2) =
              (((b.size / 2 : Nat) : Int), ((b.size / 2 : Nat) : Int))
            rw [hcast]
          · rw [if_neg hcen]
            rcases ExplicitAI.opportunisticLoop_spec b ai
                b.all_win_conditions hgood with hok3 | ⟨m3, hm3, hgood3⟩
            · simp only [hok3]
              rcases ExplicitAI.fallbackLoop_spec b ai
                  b.all_win_conditions hgood with ⟨hres, hall⟩ | ⟨m4, hm4, hgood4⟩
              · exfalso
                have hfmem : b.field i0 j0 ∈ b.rowFields i0 :=
                  List.mem_map.mpr ⟨j0, List.mem_range.mpr hj0, rfl⟩
                exact hall _ (Board.rowFields_mem_wincons b hi0) _ hfmem hc0
              · simp only [hm4]
                exact ⟨m4, rfl, hgood4⟩
            · simp only [hm3]
              exact ⟨m3, rfl, hgood3⟩
        · simp only [hm2]
          exact ⟨m2, rfl, hgood2⟩
      · simp only [hm1]
        exact ⟨m1, rfl, hgood1⟩
  · intro ai ci cj b hcc
    unfold ExplicitAI.next_move at hcc
    by_cases hemp : b.is_empty = true
    · rw [if_pos hemp] at hcc
      cases hcc
    · rw [if_neg hemp] at hcc
      cases hw : ExplicitAI.winningMoveLoop ai ((b.size : Int) - 1)
          b.all_win_conditions with
      | error e =>
        simp only [hw] at hcc
        injection hcc with hcc'
        cases (ExplicitAI.winningMoveLoop_error ai _ _ hw).symm.trans hcc'
      | ok o1 =>
        cases o1 with
        | some m =>
          simp only [hw] at hcc
          cases hcc
        | none =>
          simp only [hw] at hcc
          cases hd : ExplicitAI.defensiveMoveLoop ai ((b.size : Int) - 1)
              b.all_win_conditions with
          | error e =>
            simp only [hd] at hcc
            injection hcc with hcc'
            cases (ExplicitAI.defensiveMoveLoop_no_error ai _ _ hd).symm.trans hcc'
          | ok o2 =>
            cases o2 with
            | some m =>
              simp only [hd] at hcc
              cases hcc
            | none =>
              simp only [hd] at hcc
              cases hg : b.getItem ((b.size : Int) / 2, (b.size : Int) / 2) with
              | none =>
                simp only [hg] at hcc
                injection hcc with hcc'
                cases hcc'
              | some s =>
                simp only [hg] at hcc
                by_cases hcen : (s == State.N) = true
                · rw [if_pos hcen] at hcc
                  cases hcc
                · rw [if_neg hcen] at hcc
                  cases ho : ExplicitAI.opportunisticLoop ai b.all_win_conditions with
                  | some m =>
                    simp only [ho] at hcc
                    cases hcc
                  | none =>
                    simp only [ho] at hcc
                    cases hf : ExplicitAI.fallbackLoop ai b.all_win_conditions with
                    | some m =>
                      simp only [hf] at hcc
                      cases hcc
                    | none =>
                      rcases ExplicitAI.fallbackLoop_spec b ai
                          b.all_win_conditions (Board.wincon_fields b) with
                        ⟨_, hall⟩ | ⟨m, hm, _⟩
                      · exact Board.is_full_of_no_empty b hall
                      · rw [hf] at hm
                        cases hm

/-- Witness for C2 (amended): AI player `O` on the board with a single
`X` at `(0, 0)`. -/
theorem C2_witness :
    ∃ m, ExplicitAI.next_move .O false false gX00.board = .ok m ∧
      targetsEmptyCell gX00.board .O m :=
  C2_next_move_total.1 .O false false gX00.board rfl
    ⟨1, 1, by decide, by decide, rfl⟩ (by decide)

end TicTacToe
